import Mathlib

/-!
Verification of the governed RAG pipeline (rag service, chat service and the
shared utilities) of the orkio backend.  JavaScript strings are modelled as
Lean strings (with character-wise lowercasing for case-insensitive matching),
JavaScript numbers that carry similarity scores and costs as rationals, and
the vector arithmetic of cosine similarity as real arithmetic.  Database and
network effects are passed in explicitly: the rows a query would return and
the results external providers would produce are parameters of the modelled
functions, and each function returns, besides its response value, a trace of
the externally visible effects (provider calls, decision-log writes, cost
increments) that the original code would perform.
-/

namespace Orkio

/-! ## String helpers (case-insensitive substring matching, as in checkContract) -/

/-- Character-wise lowercasing; models the use of String.prototype.toLowerCase
on the ASCII topic and message strings of checkContract. -/
def strLower (s : String) : String := String.mk (s.data.map Char.toLower)

/-- Models startsWith on character lists: needle is a prefix of hay. -/
def startsWithL : List Char → List Char → Bool
  | _, [] => true
  | [], _ :: _ => false
  | a :: as, b :: bs => a == b && startsWithL as bs

/-- Models String.prototype.includes: needle occurs contiguously in hay. -/
def containsL : List Char → List Char → Bool
  | [], needle => needle.isEmpty
  | c :: cs, needle => startsWithL (c :: cs) needle || containsL cs needle

/-- Substring test on strings, via their character lists. -/
def containsStr (hay needle : String) : Bool := containsL hay.data needle.data

/-! ## Agent data model (fields of the agents row used by the chat service) -/

inductive AgentMode
  | INTERNAL
  | HYBRID
  | FREE
deriving DecidableEq

structure Agent where
  kill_switch : Bool
  cost_used_today : ℚ
  cost_limit_daily : ℚ
  forbidden_topics : List String
  allowed_topics : List String
  mode : AgentMode
  enable_rag : Bool
  system_prompt : String

/-- Evidence item surfaced by retrieval, as in the RAGEvidence type. -/
structure RAGEvidence where
  document_id : String
  document_name : String
  document_version : Nat
  chunk_text : String
  chunk_index : Nat
  similarity_score : ℚ
deriving DecidableEq

/-- Result type shared by checkContract and checkModeRequirements:
an allowed flag plus an optional reason string. -/
structure CheckResult where
  allowed : Bool
  reason : Option String := none
deriving DecidableEq

/-- Reason produced by checkContract when a forbidden topic matches. -/
def forbiddenTopicReason (topic : String) : String :=
  "Message contains forbidden topic: \"" ++ topic ++ "\""

/-- Reason produced by checkContract when no allowed topic matches. -/
def notAllowedReason : String := "Message does not match any allowed topics"

/-- checkContract from the chat service: case-insensitive substring match of
the forbidden topics (first match blocks, citing the topic), then, when the
allowed-topics list is non-empty, the message must match one of them. -/
def checkContract (message : String) (agent : Agent) : CheckResult :=
  let messageLower := strLower message
  match agent.forbidden_topics.find? (fun t => containsStr messageLower (strLower t)) with
  | some topic => { allowed := false, reason := some (forbiddenTopicReason topic) }
  | none =>
    if agent.allowed_topics.length > 0 then
      if agent.allowed_topics.any (fun t => containsStr messageLower (strLower t)) then
        { allowed := true }
      else
        { allowed := false, reason := some notAllowedReason }
    else
      { allowed := true }

/-- Reason produced by checkModeRequirements when INTERNAL mode has no evidence. -/
def noEvidenceReason : String :=
  "INTERNAL mode requires document evidence. No relevant documents found."

/-- Reason produced by checkModeRequirements when the best evidence is weak. -/
def lowConfidenceReason : String :=
  "INTERNAL mode requires high-confidence evidence. Available evidence has low similarity scores."

/-- Models Math.max over a spread non-empty array (the empty case is never
reached by checkModeRequirements, which returns earlier on empty evidence). -/
def maxScore : List ℚ → ℚ
  | [] => 0
  | x :: xs => xs.foldl max x

/-- The INTERNAL confidence threshold 0.5 of checkModeRequirements. -/
def internalFloor : ℚ := mkRat 1 2

/-- checkModeRequirements from the chat service: INTERNAL mode needs at least
one evidence item and a maximum similarity of at least 0.5; HYBRID and FREE
always pass. -/
def checkModeRequirements (mode : AgentMode) (evidence : List RAGEvidence) : CheckResult :=
  match mode with
  | .INTERNAL =>
    if evidence.length = 0 then
      { allowed := false, reason := some noEvidenceReason }
    else
      let maxSimilarity := maxScore (evidence.map (fun e => e.similarity_score))
      if maxSimilarity < internalFloor then
        { allowed := false, reason := some lowConfidenceReason }
      else
        { allowed := true }
  | _ => { allowed := true }

/-! ### Facts about maxScore -/

theorem foldl_max_le_iff {init c : ℚ} {xs : List ℚ} :
    xs.foldl max init < c ↔ init < c ∧ ∀ x ∈ xs, x < c := by
  induction xs generalizing init with
  | nil => simp
  | cons y ys ih =>
    simp only [List.foldl_cons, ih, max_lt_iff, List.mem_cons]
    constructor
    · rintro ⟨⟨h1, h2⟩, h3⟩
      exact ⟨h1, fun x hx => hx.elim (fun hxy => hxy ▸ h2) (h3 x)⟩
    · rintro ⟨h1, h2⟩
      exact ⟨⟨h1, h2 y (Or.inl rfl)⟩, fun x hx => h2 x (Or.inr hx)⟩

theorem maxScore_lt_iff {c : ℚ} {xs : List ℚ} (h : xs ≠ []) :
    maxScore xs < c ↔ ∀ x ∈ xs, x < c := by
  cases xs with
  | nil => exact absurd rfl h
  | cons y ys =>
    simp only [maxScore, foldl_max_le_iff, List.mem_cons]
    constructor
    · rintro ⟨h1, h2⟩
      exact fun x hx => hx.elim (fun hxy => hxy ▸ h1) (h2 x)
    · exact fun h2 => ⟨h2 y (Or.inl rfl), fun x hx => h2 x (Or.inr hx)⟩

/-! ## Claim C2 -/

/-- Claim C2: checkModeRequirements allows every call with mode FREE or
HYBRID; for INTERNAL it blocks with the no-evidence reason when the evidence
list is empty, blocks with the distinct insufficient-confidence reason when
the evidence is non-empty but every similarity score is below 0.5, and allows
exactly when some evidence item has similarity score at least 0.5. -/
theorem checkModeRequirements_spec (mode : AgentMode) (evidence : List RAGEvidence) :
    ((mode = .FREE ∨ mode = .HYBRID) →
      checkModeRequirements mode evidence = { allowed := true }) ∧
    (checkModeRequirements .INTERNAL [] = { allowed := false, reason := some noEvidenceReason }) ∧
    (evidence ≠ [] → (∀ e ∈ evidence, e.similarity_score < internalFloor) →
      checkModeRequirements .INTERNAL evidence =
        { allowed := false, reason := some lowConfidenceReason }) ∧
    (checkModeRequirements .INTERNAL evidence = { allowed := true } ↔
      ∃ e ∈ evidence, internalFloor ≤ e.similarity_score) ∧
    noEvidenceReason ≠ lowConfidenceReason := by
  refine ⟨?_, ?_, ?_, ?_, ?_⟩
  · rintro (rfl | rfl) <;> rfl
  · rfl
  · intro hne hall
    have hmapne : evidence.map (fun e => e.similarity_score) ≠ [] := by
      simpa using hne
    have : maxScore (evidence.map (fun e => e.similarity_score)) < internalFloor := by
      rw [maxScore_lt_iff hmapne]
      intro x hx
      rcases List.mem_map.mp hx with ⟨e, he, rfl⟩
      exact hall e he
    simp only [checkModeRequirements]
    rw [if_neg (by simpa using hne), if_pos this]
  · constructor
    · intro hres
      by_contra hno
      push_neg at hno
      rcases List.eq_nil_or_concat evidence with rfl | ⟨_, _, _⟩
      · simp only [checkModeRequirements, List.length_nil, if_pos rfl] at hres
        exact absurd (congrArg CheckResult.allowed hres) (by simp)
      · have hne : evidence ≠ [] := by
          rename_i h; rw [h]; simp
        have hall : ∀ e ∈ evidence, e.similarity_score < internalFloor :=
          fun e he => hno e he
        have hmapne : evidence.map (fun e => e.similarity_score) ≠ [] := by
          simpa using hne
        have hmax : maxScore (evidence.map (fun e => e.similarity_score)) < internalFloor := by
          rw [maxScore_lt_iff hmapne]
          intro x hx
          rcases List.mem_map.mp hx with ⟨e, he, rfl⟩
          exact hall e he
        simp only [checkModeRequirements] at hres
        rw [if_neg (by simpa using hne), if_pos hmax] at hres
        exact absurd (congrArg CheckResult.allowed hres) (by simp)
    · rintro ⟨e, he, hsc⟩
      have hne : evidence ≠ [] := by
        intro h; rw [h] at he; exact absurd he (List.not_mem_nil e)
      have hmapne : evidence.map (fun e => e.similarity_score) ≠ [] := by
        simpa using hne
      have hmax : ¬ maxScore (evidence.map (fun e => e.similarity_score)) < internalFloor := by
        rw [maxScore_lt_iff hmapne]
        push_neg
        exact ⟨e.similarity_score, List.mem_map.mpr ⟨e, he, rfl⟩, hsc⟩
      simp only [checkModeRequirements]
      rw [if_neg (by simpa using hne), if_neg hmax]
  · decide

/-- Witness for claim C2 at concrete inputs: HYBRID always passes; INTERNAL
with a single evidence item of score 0.3 is blocked for low confidence, while
a score of 0.6 is allowed. -/
theorem checkModeRequirements_spec_witness :
    (checkModeRequirements .HYBRID [] = { allowed := true }) ∧
    (checkModeRequirements .INTERNAL
        [{ document_id := "d", document_name := "doc", document_version := 1,
           chunk_text := "t", chunk_index := 0, similarity_score := mkRat 3 10 }] =
      { allowed := false, reason := some lowConfidenceReason }) ∧
    (checkModeRequirements .INTERNAL
        [{ document_id := "d", document_name := "doc", document_version := 1,
           chunk_text := "t", chunk_index := 0, similarity_score := mkRat 6 10 }] =
      { allowed := true }) := by
  refine ⟨?_, ?_, ?_⟩
  · exact (checkModeRequirements_spec .HYBRID []).1 (Or.inr rfl)
  · exact (checkModeRequirements_spec .INTERNAL _).2.2.1 (by simp)
      (by intro e he; simp at he; rw [he]; decide)
  · exact (checkModeRequirements_spec .INTERNAL _).2.2.2.1.mpr
      ⟨{ document_id := "d", document_name := "doc", document_version := 1,
         chunk_text := "t", chunk_index := 0, similarity_score := mkRat 6 10 },
       by simp, by decide⟩

/-! ## Claim C3 -/

/-- Claim C3: checkContract blocks, citing the matched topic, whenever the
message case-insensitively contains a forbidden topic; this takes precedence
over allowed topics; when no forbidden topic matches and allowed topics is
non-empty, the message is blocked with the generic reason unless it contains
at least one allowed topic; otherwise it is allowed. -/
theorem checkContract_spec (message : String) (agent : Agent) :
    ((agent.forbidden_topics.any
        (fun t => containsStr (strLower message) (strLower t)) = true) →
      ∃ t ∈ agent.forbidden_topics,
        containsStr (strLower message) (strLower t) = true ∧
        checkContract message agent =
          { allowed := false, reason := some (forbiddenTopicReason t) }) ∧
    ((∀ t ∈ agent.forbidden_topics,
        containsStr (strLower message) (strLower t) = false) →
      agent.allowed_topics ≠ [] →
      (∀ t ∈ agent.allowed_topics,
        containsStr (strLower message) (strLower t) = false) →
      checkContract message agent =
        { allowed := false, reason := some notAllowedReason }) ∧
    ((∀ t ∈ agent.forbidden_topics,
        containsStr (strLower message) (strLower t) = false) →
      (agent.allowed_topics = [] ∨
        ∃ t ∈ agent.allowed_topics,
          containsStr (strLower message) (strLower t) = true) →
      checkContract message agent = { allowed := true }) := by
  refine ⟨?_, ?_, ?_⟩
  · intro hany
    have h1 : ∃ x ∈ agent.forbidden_topics,
        containsStr (strLower message) (strLower x) = true := by
      simpa using List.any_eq_true.mp hany
    cases hfind : agent.forbidden_topics.find?
        (fun t => containsStr (strLower message) (strLower t)) with
    | none =>
      exfalso
      rcases h1 with ⟨x, hx, hpx⟩
      have hnone := List.find?_eq_none.mp hfind x hx
      rw [hpx] at hnone
      exact hnone rfl
    | some t =>
      have hp := List.find?_some hfind
      refine ⟨t, List.mem_of_find?_eq_some hfind, by simpa using hp, ?_⟩
      simp only [checkContract, hfind]
  · intro hforb hne hallow
    have hfind : agent.forbidden_topics.find?
        (fun t => containsStr (strLower message) (strLower t)) = none :=
      List.find?_eq_none.mpr (fun t ht => by rw [hforb t ht]; simp)
    have hanyal : agent.allowed_topics.any
        (fun t => containsStr (strLower message) (strLower t)) = false := by
      rw [List.any_eq_false]
      intro t ht
      rw [hallow t ht]; simp
    simp only [checkContract, hfind]
    rw [if_pos (by simpa [List.length_pos] using hne), hanyal]
    rfl
  · intro hforb hal
    have hfind : agent.forbidden_topics.find?
        (fun t => containsStr (strLower message) (strLower t)) = none :=
      List.find?_eq_none.mpr (fun t ht => by rw [hforb t ht]; simp)
    simp only [checkContract, hfind]
    rcases hal with hempty | ⟨t, ht, hmatch⟩
    · rw [if_neg (by simp [hempty])]
    · have hany : agent.allowed_topics.any
          (fun t => containsStr (strLower message) (strLower t)) = true :=
        List.any_eq_true.mpr ⟨t, ht, hmatch⟩
      have hlen : agent.allowed_topics.length > 0 :=
        List.length_pos.mpr (fun h => by rw [h] at ht; exact absurd ht (List.not_mem_nil t))
      rw [if_pos hlen, hany]
      rfl

/-- Agent fixture used by the claim C3 witness. -/
def contractAgentW : Agent :=
  { kill_switch := false, cost_used_today := 0, cost_limit_daily := 1,
    forbidden_topics := ["Crypto"], allowed_topics := ["weather"],
    mode := .HYBRID, enable_rag := true, system_prompt := "" }

/-- Witness for claim C3 at concrete inputs: a message matching both the
forbidden topic Crypto and the allowed topic weather is blocked citing the
forbidden topic; a message matching neither is blocked with the generic
reason; a message matching only an allowed topic passes. -/
theorem checkContract_spec_witness :
    (∃ t ∈ ["Crypto"],
      containsStr (strLower "Tell me about CRYPTO weather") (strLower t) = true ∧
      checkContract "Tell me about CRYPTO weather" contractAgentW =
        { allowed := false, reason := some (forbiddenTopicReason t) }) ∧
    (checkContract "hello" contractAgentW =
      { allowed := false, reason := some notAllowedReason }) ∧
    (checkContract "what is the weather" contractAgentW = { allowed := true }) := by
  refine ⟨?_, ?_, ?_⟩
  · exact (checkContract_spec "Tell me about CRYPTO weather" contractAgentW).1 (by decide)
  · exact (checkContract_spec "hello" contractAgentW).2.1
      (by decide) (by decide) (by decide)
  · exact (checkContract_spec "what is the weather" contractAgentW).2.2
      (by decide) (Or.inr ⟨"weather", by decide, by decide⟩)

/-! ## Retrieval ranker (retrieveContext and retrieveContextWithPgVector)

The database fetch and the embedding call are external collaborators; the
model starts from the scored candidate rows, that is, from the result of the
map that pairs each fetched embeddings row with its cosine similarity to the
query vector (the pgvector path computes the cosine distance of the same two
vectors server side, so its distance column is one minus the same score). -/

structure ScoredRow where
  document_id : String
  document_name : String
  document_version : Nat
  chunk_index : Nat
  chunk_text : String
  similarity : ℚ
deriving DecidableEq

/-- The retrieval similarity floor 0.3 used by both retrieval paths. -/
def simFloor : ℚ := mkRat 3 10

/-- Stable insertion used to model the JavaScript stable sort. -/
def insertBy {α : Type} (le : α → α → Bool) (x : α) : List α → List α
  | [] => [x]
  | y :: ys => if le x y then x :: y :: ys else y :: insertBy le x ys

/-- Stable sort by a boolean comparison, modelling Array.prototype.sort with
a comparator (stable per the ECMAScript specification). -/
def sortBy {α : Type} (le : α → α → Bool) : List α → List α
  | [] => []
  | x :: xs => insertBy le x (sortBy le xs)

/-- Comparator of the linear path: sort((a, b) => b.similarity - a.similarity). -/
def descBySim (a b : ScoredRow) : Bool := decide (b.similarity ≤ a.similarity)

/-- Cosine distance computed by the pgvector operator on the same vectors. -/
def cosDistance (r : ScoredRow) : ℚ := 1 - r.similarity

/-- Comparator of the pgvector path: ORDER BY embedding distance ascending. -/
def ascByDistance (a b : ScoredRow) : Bool := decide (cosDistance a ≤ cosDistance b)

/-- Evidence record built from a surviving chunk (same fields on both paths). -/
def toEvidence (c : ScoredRow) : RAGEvidence :=
  { document_id := c.document_id, document_name := c.document_name,
    document_version := c.document_version, chunk_text := c.chunk_text,
    chunk_index := c.chunk_index, similarity_score := c.similarity }

structure RetrievalResult where
  context : String
  evidence : List RAGEvidence
deriving DecidableEq

/-- Context block for one chunk: source header plus the chunk text. -/
def contextEntry (c : ScoredRow) : String :=
  "[Source: " ++ c.document_name ++ " v" ++ toString c.document_version ++ "]\n" ++ c.chunk_text

/-- Linear-scan retrieval path: sort descending by similarity, take the top
topK, keep only results strictly above the 0.3 floor, then build the context
string and the evidence list (empty on no survivors). -/
def retrieveContext (rows : List ScoredRow) (topK : Nat) : RetrievalResult :=
  let scoredChunks := sortBy descBySim rows
  let topChunks := scoredChunks.take topK
  let relevantChunks := topChunks.filter (fun c => decide (simFloor < c.similarity))
  if relevantChunks.length = 0 then
    { context := "", evidence := [] }
  else
    { context := String.intercalate "\n\n---\n\n" (relevantChunks.map contextEntry),
      evidence := relevantChunks.map toEvidence }

/-- Accelerated retrieval path: the store orders by cosine distance ascending
and limits to topK; the returned similarity column is one minus the distance;
the service then keeps results strictly above the 0.3 floor and builds the
same context string and evidence list. -/
def retrieveContextWithPgVector (rows : List ScoredRow) (topK : Nat) : RetrievalResult :=
  let limited := (sortBy ascByDistance rows).take topK
  let withSimilarity := limited.map (fun r => { r with similarity := 1 - cosDistance r })
  let relevantChunks := withSimilarity.filter (fun c => decide (simFloor < c.similarity))
  if relevantChunks.length = 0 then
    { context := "", evidence := [] }
  else
    { context := String.intercalate "\n\n---\n\n" (relevantChunks.map contextEntry),
      evidence := relevantChunks.map toEvidence }

/-! ### Sorting facts -/

theorem mem_insertBy {α : Type} (le : α → α → Bool) (x a : α) (l : List α) :
    a ∈ insertBy le x l ↔ a = x ∨ a ∈ l := by
  induction l with
  | nil => simp [insertBy]
  | cons y ys ih =>
    simp only [insertBy]
    split
    · simp
    · simp only [List.mem_cons, ih]
      tauto

theorem mem_sortBy {α : Type} (le : α → α → Bool) (a : α) (l : List α) :
    a ∈ sortBy le l ↔ a ∈ l := by
  induction l with
  | nil => simp [sortBy]
  | cons y ys ih =>
    simp only [sortBy, mem_insertBy, ih, List.mem_cons]

theorem pairwise_insertBy {α : Type} {le : α → α → Bool}
    (htot : ∀ a b, le a b = true ∨ le b a = true)
    (htrans : ∀ a b c, le a b = true → le b c = true → le a c = true)
    (x : α) {l : List α} (hl : l.Pairwise (fun a b => le a b = true)) :
    (insertBy le x l).Pairwise (fun a b => le a b = true) := by
  induction l with
  | nil => simp [insertBy]
  | cons y ys ih =>
    rcases List.pairwise_cons.mp hl with ⟨hy, hys⟩
    simp only [insertBy]
    split
    · rename_i hxy
      refine List.pairwise_cons.mpr ⟨?_, hl⟩
      intro z hz
      rcases List.mem_cons.mp hz with rfl | hz'
      · exact hxy
      · exact htrans x y z hxy (hy z hz')
    · rename_i hxy
      have hyx : le y x = true := (htot x y).resolve_left hxy
      refine List.pairwise_cons.mpr ⟨?_, ih hys⟩
      intro z hz
      rcases (mem_insertBy le x z ys).mp hz with rfl | hz'
      · exact hyx
      · exact hy z hz'

theorem pairwise_sortBy {α : Type} {le : α → α → Bool}
    (htot : ∀ a b, le a b = true ∨ le b a = true)
    (htrans : ∀ a b c, le a b = true → le b c = true → le a c = true)
    (l : List α) :
    (sortBy le l).Pairwise (fun a b => le a b = true) := by
  induction l with
  | nil => simp [sortBy]
  | cons y ys ih => exact pairwise_insertBy htot htrans y ih

/-! ## Claim C4 -/

theorem retrieveContext_evidence_eq (rows : List ScoredRow) (topK : Nat) :
    (retrieveContext rows topK).evidence =
      (((sortBy descBySim rows).take topK).filter
        (fun c => decide (simFloor < c.similarity))).map toEvidence := by
  simp only [retrieveContext]
  split
  · rename_i hlen
    rw [List.length_eq_zero.mp hlen]
    rfl
  · rfl

/-- Claim C4 counterexample: the claim asserts that results at or above the
0.3 floor survive, but the code keeps only results strictly above it: a
top-ranked candidate scoring exactly 0.3 is discarded and retrieval returns
the empty result. -/
theorem retrieveContext_floor_boundary_cex :
    simFloor ≤ (ScoredRow.mk "d1" "doc" 1 0 "chunk text" (mkRat 3 10)).similarity ∧
    retrieveContext [ScoredRow.mk "d1" "doc" 1 0 "chunk text" (mkRat 3 10)] 5 =
      { context := "", evidence := [] } := by
  exact ⟨by decide, by decide⟩

/-- Claim C4 amended: retrieveContext sorts the scored candidates descending
by similarity, takes the top topK, and keeps exactly the results strictly
above the 0.3 floor (so every returned evidence item scores strictly more
than 0.3, hence at least 0.3; the evidence list has at most topK items and is
ordered by descending score); when nothing scores strictly above the floor it
returns an empty context string and an empty evidence list. -/
theorem retrieveContext_floor_topk (rows : List ScoredRow) (topK : Nat) :
    ((retrieveContext rows topK).evidence.length ≤ topK) ∧
    (∀ e ∈ (retrieveContext rows topK).evidence, simFloor < e.similarity_score) ∧
    ((retrieveContext rows topK).evidence.Pairwise
      (fun a b => b.similarity_score ≤ a.similarity_score)) ∧
    ((retrieveContext rows topK).evidence =
      (((sortBy descBySim rows).take topK).filter
        (fun c => decide (simFloor < c.similarity))).map toEvidence) ∧
    ((∀ r ∈ rows, r.similarity ≤ simFloor) →
      retrieveContext rows topK = { context := "", evidence := [] }) := by
  have heq := retrieveContext_evidence_eq rows topK
  refine ⟨?_, ?_, ?_, heq, ?_⟩
  · rw [heq, List.length_map]
    calc (((sortBy descBySim rows).take topK).filter
          (fun c => decide (simFloor < c.similarity))).length
        ≤ ((sortBy descBySim rows).take topK).length := List.length_filter_le _ _
      _ ≤ topK := by
          rw [List.length_take]
          exact min_le_left _ _
  · intro e he
    rw [heq] at he
    rcases List.mem_map.mp he with ⟨c, hc, rfl⟩
    have := List.of_mem_filter hc
    simpa [toEvidence] using of_decide_eq_true this
  · rw [heq]
    rw [List.pairwise_map]
    have hsorted : (sortBy descBySim rows).Pairwise (fun a b => descBySim a b = true) :=
      pairwise_sortBy
        (fun a b => by
          simp only [descBySim, decide_eq_true_eq]
          exact (le_total b.similarity a.similarity).imp id id)
        (fun a b c hab hbc => by
          simp only [descBySim, decide_eq_true_eq] at *
          exact le_trans hbc hab)
        rows
    have htake : ((sortBy descBySim rows).take topK).Pairwise
        (fun a b => descBySim a b = true) :=
      hsorted.sublist (List.take_sublist topK _)
    have hfilter : (((sortBy descBySim rows).take topK).filter
        (fun c => decide (simFloor < c.similarity))).Pairwise
          (fun a b => descBySim a b = true) :=
      htake.sublist (List.filter_sublist _)
    refine hfilter.imp ?_
    intro a b hab
    simpa [toEvidence, descBySim] using of_decide_eq_true hab
  · intro hall
    have hnil : ((sortBy descBySim rows).take topK).filter
        (fun c => decide (simFloor < c.similarity)) = [] := by
      rw [List.filter_eq_nil_iff]
      intro c hc
      have hmem : c ∈ rows :=
        (mem_sortBy descBySim c rows).mp (List.take_subset topK _ hc)
      simp only [decide_eq_true_eq]
      exact not_lt.mpr (hall c hmem)
    simp only [retrieveContext]
    rw [if_pos (by rw [hnil]; rfl)]

/-- Witness for the amended claim C4 at concrete inputs: with rows scoring
0.9, 0.3 and 0.2 and topK 2, only the 0.9 row survives; with every row at or
below the floor the result is empty. -/
theorem retrieveContext_floor_topk_witness :
    ((retrieveContext
        [ScoredRow.mk "a" "A" 1 0 "ta" (mkRat 9 10),
         ScoredRow.mk "b" "B" 1 1 "tb" (mkRat 3 10),
         ScoredRow.mk "c" "C" 1 2 "tc" (mkRat 2 10)] 2).evidence.length ≤ 2) ∧
    (retrieveContext
        [ScoredRow.mk "b" "B" 1 1 "tb" (mkRat 3 10),
         ScoredRow.mk "c" "C" 1 2 "tc" (mkRat 2 10)] 2 =
      { context := "", evidence := [] }) := by
  refine ⟨(retrieveContext_floor_topk _ 2).1, ?_⟩
  exact (retrieveContext_floor_topk
      [ScoredRow.mk "b" "B" 1 1 "tb" (mkRat 3 10),
       ScoredRow.mk "c" "C" 1 2 "tc" (mkRat 2 10)] 2).2.2.2.2
    (by intro r hr; fin_cases hr <;> decide)

/-! ## Claim C5 -/

/-- Claim C5: the linear-scan path and the pgvector path agree: for the same
scored candidate rows and topK both apply the same 0.3 floor and the same
top-k limit and return the same context string and the same evidence list in
the same order (the pgvector path orders by ascending cosine distance, which
is descending similarity of the same vectors, and its reported similarity is
one minus that distance). -/
theorem retrieve_paths_agree (rows : List ScoredRow) (topK : Nat) :
    retrieveContextWithPgVector rows topK = retrieveContext rows topK := by
  have hle : ascByDistance = descBySim := by
    funext a b
    simp only [ascByDistance, descBySim, cosDistance]
    exact decide_eq_decide.mpr (by constructor <;> intro h <;> linarith)
  have hmap : ∀ l : List ScoredRow,
      l.map (fun r => { r with similarity := 1 - cosDistance r }) = l := by
    intro l
    induction l with
    | nil => rfl
    | cons r rs ih =>
      have hsim : (1 : ℚ) - cosDistance r = r.similarity := by
        simp only [cosDistance]; ring
      simp only [List.map_cons, ih, hsim]
  simp only [retrieveContextWithPgVector, retrieveContext, hle, hmap]

/-! ## Cosine similarity (cosineSimilarity in the shared utilities)

The loop accumulating dotProduct, normA and normB is modelled as sums over
the two vectors, taken as lists of reals. -/

/-- Accumulated dot product of the loop in cosineSimilarity. -/
def dotProduct (a b : List ℝ) : ℝ := (List.zipWith (fun x y => x * y) a b).sum

/-- Accumulated sum of squares (normA and normB of the loop). -/
def sumSq (a : List ℝ) : ℝ := (a.map (fun x => x * x)).sum

/-- cosineSimilarity from the shared utilities: 0 on length mismatch, 0 when
either accumulated square norm is zero, else the dot product divided by the
product of the square roots of the two square norms. -/
noncomputable def cosineSimilarity (a b : List ℝ) : ℝ :=
  if a.length ≠ b.length then 0
  else if sumSq a = 0 ∨ sumSq b = 0 then 0
  else dotProduct a b / (Real.sqrt (sumSq a) * Real.sqrt (sumSq b))

theorem dotProduct_eq_sum_range (a b : List ℝ) :
    dotProduct a b =
      ∑ i ∈ Finset.range (min a.length b.length), a.getD i 0 * b.getD i 0 := by
  induction a generalizing b with
  | nil => simp [dotProduct]
  | cons x xs ih =>
    cases b with
    | nil => simp [dotProduct]
    | cons y ys =>
      simp only [List.length_cons, Nat.succ_min_succ]
      rw [Finset.sum_range_succ']
      simp only [List.getD_cons_succ, List.getD_cons_zero]
      rw [← ih ys]
      simp only [dotProduct, List.zipWith_cons_cons, List.sum_cons]
      ring

theorem sumSq_eq_sum_range (a : List ℝ) :
    sumSq a = ∑ i ∈ Finset.range a.length, a.getD i 0 * a.getD i 0 := by
  induction a with
  | nil => simp [sumSq]
  | cons x xs ih =>
    simp only [List.length_cons]
    rw [Finset.sum_range_succ']
    simp only [List.getD_cons_succ, List.getD_cons_zero]
    rw [← ih]
    simp only [sumSq, List.map_cons, List.sum_cons]
    ring

theorem sumSq_nonneg (a : List ℝ) : 0 ≤ sumSq a := by
  refine List.sum_nonneg ?_
  intro x hx
  rcases List.mem_map.mp hx with ⟨y, _, rfl⟩
  exact mul_self_nonneg y

theorem sumSq_eq_zero_iff (a : List ℝ) : sumSq a = 0 ↔ ∀ x ∈ a, x = 0 := by
  induction a with
  | nil => simp [sumSq]
  | cons x xs ih =>
    simp only [sumSq, List.map_cons, List.sum_cons, List.mem_cons]
    constructor
    · intro h
      have hx2 : 0 ≤ x * x := mul_self_nonneg x
      have hxs : 0 ≤ (xs.map (fun x => x * x)).sum := sumSq_nonneg xs
      have h1 : x * x = 0 := by linarith [hx2, hxs]
      have h2 : (xs.map (fun x => x * x)).sum = 0 := by linarith [hx2, hxs]
      refine fun y hy => hy.elim (fun hyx => ?_) (fun hy' => (ih.mp h2) y hy')
      rw [hyx]
      exact mul_self_eq_zero.mp h1
    · intro h
      have hx : x = 0 := h x (Or.inl rfl)
      have hxs : sumSq xs = 0 := ih.mpr (fun y hy => h y (Or.inr hy))
      simp only [sumSq] at hxs
      rw [hx, hxs]
      ring

theorem dotProduct_self (a : List ℝ) : dotProduct a a = sumSq a := by
  induction a with
  | nil => rfl
  | cons x xs ih =>
    simp only [dotProduct, sumSq, List.zipWith_cons_cons, List.map_cons,
      List.sum_cons] at ih ⊢
    rw [ih]

theorem dotProduct_comm (a b : List ℝ) : dotProduct a b = dotProduct b a := by
  unfold dotProduct
  rw [List.zipWith_comm_of_comm (fun x y => x * y) mul_comm]

/-- Cauchy-Schwarz for the accumulated sums, squared form. -/
theorem dotProduct_sq_le (a b : List ℝ) (h : a.length = b.length) :
    dotProduct a b ^ 2 ≤ sumSq a * sumSq b := by
  rw [dotProduct_eq_sum_range, sumSq_eq_sum_range, sumSq_eq_sum_range, h, min_self]
  have := Finset.sum_mul_sq_le_sq_mul_sq (Finset.range b.length)
    (fun i => a.getD i 0) (fun i => b.getD i 0)
  calc (∑ i ∈ Finset.range b.length, a.getD i 0 * b.getD i 0) ^ 2
      ≤ (∑ i ∈ Finset.range b.length, a.getD i 0 ^ 2) *
          ∑ i ∈ Finset.range b.length, b.getD i 0 ^ 2 := this
    _ = (∑ i ∈ Finset.range b.length, a.getD i 0 * a.getD i 0) *
          ∑ i ∈ Finset.range b.length, b.getD i 0 * b.getD i 0 := by
        simp only [pow_two]

/-! ## Claim C9 -/

theorem cosineSimilarity_unfold (a b : List ℝ) (h : a.length = b.length) :
    cosineSimilarity a b = if sumSq a = 0 ∨ sumSq b = 0 then 0
      else dotProduct a b / (Real.sqrt (sumSq a) * Real.sqrt (sumSq b)) := by
  rw [cosineSimilarity, if_neg (by simp [h])]

/-- Claim C9: for equal-length vectors, cosineSimilarity lies in the interval
from -1 to 1 and is symmetric; the similarity of a non-zero vector with
itself is 1; and the result is 0 when either vector is all zero. -/
theorem cosineSimilarity_spec (a b : List ℝ) (h : a.length = b.length) :
    (-1 ≤ cosineSimilarity a b ∧ cosineSimilarity a b ≤ 1) ∧
    cosineSimilarity a b = cosineSimilarity b a ∧
    ((∃ x ∈ a, x ≠ 0) → cosineSimilarity a a = 1) ∧
    (((∀ x ∈ a, x = 0) ∨ (∀ x ∈ b, x = 0)) → cosineSimilarity a b = 0) := by
  refine ⟨?_, ?_, ?_, ?_⟩
  · rw [cosineSimilarity_unfold a b h]
    by_cases hz : sumSq a = 0 ∨ sumSq b = 0
    · rw [if_pos hz]
      norm_num
    · rw [if_neg hz]
      push_neg at hz
      have hA : 0 < sumSq a := lt_of_le_of_ne (sumSq_nonneg a) (Ne.symm hz.1)
      have hB : 0 < sumSq b := lt_of_le_of_ne (sumSq_nonneg b) (Ne.symm hz.2)
      have hD : 0 < Real.sqrt (sumSq a) * Real.sqrt (sumSq b) :=
        mul_pos (Real.sqrt_pos.mpr hA) (Real.sqrt_pos.mpr hB)
      have hsq : dotProduct a b ^ 2 ≤
          (Real.sqrt (sumSq a) * Real.sqrt (sumSq b)) ^ 2 := by
        rw [mul_pow, Real.sq_sqrt hA.le, Real.sq_sqrt hB.le]
        exact dotProduct_sq_le a b h
      have habs := abs_le_of_sq_le_sq' hsq hD.le
      constructor
      · rw [le_div_iff hD]
        calc (-1 : ℝ) * (Real.sqrt (sumSq a) * Real.sqrt (sumSq b))
            = -(Real.sqrt (sumSq a) * Real.sqrt (sumSq b)) := by ring
          _ ≤ dotProduct a b := habs.1
      · rw [div_le_one hD]
        exact habs.2
  · rw [cosineSimilarity_unfold a b h, cosineSimilarity_unfold b a h.symm]
    by_cases hz : sumSq a = 0 ∨ sumSq b = 0
    · rw [if_pos hz, if_pos hz.symm]
    · rw [if_neg hz, if_neg (fun hzz => hz hzz.symm), dotProduct_comm, mul_comm]
  · intro hnz
    have hzero : sumSq a ≠ 0 := by
      intro h0
      rcases hnz with ⟨x, hx, hxne⟩
      exact hxne ((sumSq_eq_zero_iff a).mp h0 x hx)
    rw [cosineSimilarity_unfold a a rfl, if_neg (by simp [hzero]),
      dotProduct_self, Real.mul_self_sqrt (sumSq_nonneg a)]
    exact div_self hzero
  · intro hz
    have hz2 : sumSq a = 0 ∨ sumSq b = 0 := by
      rcases hz with hza | hzb
      · exact Or.inl ((sumSq_eq_zero_iff a).mpr hza)
      · exact Or.inr ((sumSq_eq_zero_iff b).mpr hzb)
    rw [cosineSimilarity_unfold a b h, if_pos hz2]

/-- Witness for claim C9 at concrete equal-length vectors. -/
theorem cosineSimilarity_spec_witness :
    ((-1 ≤ cosineSimilarity [1, 0] [0, 1] ∧ cosineSimilarity [1, 0] [0, 1] ≤ 1) ∧
    cosineSimilarity [1, 0] [0, 1] = cosineSimilarity [0, 1] [1, 0] ∧
    ((∃ x ∈ ([1, 0] : List ℝ), x ≠ 0) → cosineSimilarity [1, 0] [1, 0] = 1) ∧
    (((∀ x ∈ ([1, 0] : List ℝ), x = 0) ∨ (∀ x ∈ ([0, 1] : List ℝ), x = 0)) →
      cosineSimilarity [1, 0] [0, 1] = 0)) :=
  cosineSimilarity_spec [1, 0] [0, 1] rfl

/-! ## Chunker (chunkText in the shared utilities)

The while loop of chunkText is modelled with an explicit fuel argument: a
none result means the loop has not finished within the given number of
iterations, which makes non-termination of the source loop expressible.
Window arithmetic is on character indices; the JavaScript comparison
breakPoint > start + chunkSize / 2 over floats is exactly the integer
comparison 2 * breakPoint > 2 * start + chunkSize used here. -/

/-- Models String.prototype.trim: whitespace removed from both ends. -/
def trimChars (s : List Char) : List Char :=
  ((s.dropWhile Char.isWhitespace).reverse.dropWhile Char.isWhitespace).reverse

/-- Models String.prototype.slice(a, e) for 0 ≤ a ≤ e (clamped at the end). -/
def sliceL (s : List Char) (a e : Nat) : List Char := (s.take e).drop a

/-- Models String.prototype.lastIndexOf(c, pos): the largest index at most
pos holding character c, or -1. -/
def lastIdxLe (s : List Char) (c : Char) : Nat → Int
  | 0 => if s[0]? = some c then 0 else -1
  | i + 1 => if s[i + 1]? = some c then ((i : Int) + 1) else lastIdxLe s c i

/-- One iteration of the chunkText loop: the window end for a given start,
including the sentence-boundary heuristic. -/
def chunkStep (s : List Char) (size start : Nat) : Nat :=
  let e := start + size
  if e < s.length then
    let lastPeriod := lastIdxLe s '.' e
    let lastNewline := lastIdxLe s '\n' e
    let breakPoint := max lastPeriod lastNewline
    if 2 * breakPoint > 2 * (start : Int) + (size : Int) then (breakPoint + 1).toNat
    else e
  else e

/-- The chunkText loop with fuel: pushes the trimmed slice of each window and
continues at end minus overlap (clamped at zero by natural subtraction, as
the source clamps a negative start to zero). -/
def chunkLoopF (s : List Char) (size overlap : Nat) : Nat → Nat → Option (List (List Char))
  | 0, _ => none
  | fuel + 1, start =>
    if start < s.length then
      match chunkLoopF s size overlap fuel (chunkStep s size start - overlap) with
      | none => none
      | some rest => some (trimChars (sliceL s start (chunkStep s size start)) :: rest)
    else some []

/-- The windows (start, end) visited by the chunkText loop, with fuel. -/
def chunkWindowsF (s : List Char) (size overlap : Nat) : Nat → Nat → Option (List (Nat × Nat))
  | 0, _ => none
  | fuel + 1, start =>
    if start < s.length then
      match chunkWindowsF s size overlap fuel (chunkStep s size start - overlap) with
      | none => none
      | some rest => some ((start, chunkStep s size start) :: rest)
    else some []

/-- chunkText from the shared utilities: the loop run with enough fuel for
every terminating configuration, followed by the filter dropping fragments
that are empty after trimming. -/
def chunkText (s : List Char) (size overlap : Nat) : List (List Char) :=
  ((chunkLoopF s size overlap (s.length + 1) 0).getD []).filter (fun c => 0 < c.length)

/-- Concatenation of fragments with the overlapping prefix of each fragment
after the first removed, as in the reconstruction reading of the spec. -/
def reconcat (overlap : Nat) : List (List Char) → List Char
  | [] => []
  | c :: cs => c ++ (cs.map (fun d => d.drop overlap)).join

/-! ### Chunker loop facts -/

theorem lastIdxLe_le (s : List Char) (c : Char) :
    ∀ pos : Nat, lastIdxLe s c pos ≤ (pos : Int) := by
  intro pos
  induction pos with
  | zero =>
    simp only [lastIdxLe]
    split <;> omega
  | succ i ih =>
    simp only [lastIdxLe]
    split
    · omega
    · calc lastIdxLe s c i ≤ (i : Int) := ih
        _ ≤ ((i + 1 : Nat) : Int) := by omega

theorem chunkStep_lower (s : List Char) {size overlap : Nat}
    (h1 : 1 ≤ size) (h2 : 2 * overlap ≤ size) (start : Nat) :
    start + overlap + 1 ≤ chunkStep s size start := by
  unfold chunkStep
  dsimp only
  split
  · split
    · rename_i hbp
      omega
    · omega
  · omega

theorem chunkStep_upper (s : List Char) (size start : Nat) :
    chunkStep s size start ≤ start + size + 1 := by
  unfold chunkStep
  dsimp only
  split
  · split
    · rename_i hbp
      have hp := lastIdxLe_le s '.' (start + size)
      have hn := lastIdxLe_le s '\n' (start + size)
      have hmax : max (lastIdxLe s '.' (start + size)) (lastIdxLe s '\n' (start + size))
          ≤ ((start + size : Nat) : Int) := max_le hp hn
      omega
    · omega
  · omega

theorem chunkLoopF_isSome {s : List Char} {size overlap : Nat}
    (h1 : 1 ≤ size) (h2 : 2 * overlap ≤ size) :
    ∀ fuel start, s.length - start < fuel →
      (chunkLoopF s size overlap fuel start).isSome = true := by
  intro fuel
  induction fuel with
  | zero => omega
  | succ n ih =>
    intro start hfuel
    simp only [chunkLoopF]
    split
    · rename_i hlt
      have hstep := chunkStep_lower s h1 h2 start
      have hrec : s.length - (chunkStep s size start - overlap) < n := by omega
      cases hres : chunkLoopF s size overlap n (chunkStep s size start - overlap) with
      | none =>
        have := ih (chunkStep s size start - overlap) hrec
        rw [hres] at this
        exact absurd this (by simp)
      | some rest => simp
    · simp

theorem chunkLoopF_eq_windows (s : List Char) (size overlap : Nat) :
    ∀ fuel start,
      chunkLoopF s size overlap fuel start =
        (chunkWindowsF s size overlap fuel start).map
          (List.map (fun w => trimChars (sliceL s w.1 w.2))) := by
  intro fuel
  induction fuel with
  | zero => intro start; rfl
  | succ n ih =>
    intro start
    simp only [chunkLoopF, chunkWindowsF]
    split
    · rw [ih (chunkStep s size start - overlap)]
      cases chunkWindowsF s size overlap n (chunkStep s size start - overlap) with
      | none => rfl
      | some ws => rfl
    · rfl

theorem take_drop_append {α : Type} (s : List α) :
    ∀ a e : Nat, a ≤ e → (s.take e).drop a ++ s.drop e = s.drop a := by
  induction s with
  | nil => intro a e _; simp
  | cons x xs ih =>
    intro a e hae
    cases a with
    | zero => simp [List.take_append_drop]
    | succ a' =>
      cases e with
      | zero => omega
      | succ e' =>
        simp only [List.take_succ_cons, List.drop_succ_cons]
        exact ih a' e' (by omega)

theorem windows_join_drop {s : List Char} {size overlap : Nat}
    (h1 : 1 ≤ size) (h2 : 2 * overlap ≤ size) :
    ∀ fuel start ws, chunkWindowsF s size overlap fuel start = some ws →
      (ws.map (fun w => (sliceL s w.1 w.2).drop overlap)).join =
        s.drop (start + overlap) := by
  intro fuel
  induction fuel with
  | zero => intro start ws h; exact absurd h (by simp [chunkWindowsF])
  | succ n ih =>
    intro start ws h
    simp only [chunkWindowsF] at h
    split at h
    · rename_i hlt
      cases hres : chunkWindowsF s size overlap n (chunkStep s size start - overlap) with
      | none => rw [hres] at h; exact absurd h (by simp)
      | some rest =>
        rw [hres] at h
        have hws : ws = (start, chunkStep s size start) :: rest := by
          exact (Option.some_injective _ h).symm
        subst hws
        have hstep := chunkStep_lower s h1 h2 start
        have hrest := ih (chunkStep s size start - overlap) rest hres
        have hsub : chunkStep s size start - overlap + overlap = chunkStep s size start := by
          omega
        rw [hsub] at hrest
        simp only [List.map_cons, List.join_cons, hrest]
        have hslice : (sliceL s start (chunkStep s size start)).drop overlap =
            (s.take (chunkStep s size start)).drop (start + overlap) := by
          simp only [sliceL, List.drop_drop]
          try rw [Nat.add_comm overlap start]
        rw [hslice]
        exact take_drop_append s (start + overlap) (chunkStep s size start) (by omega)
    · rename_i hge
      have hws : ws = [] := (Option.some_injective _ h).symm
      subst hws
      simp only [List.map_nil, List.join_nil]
      exact (List.drop_eq_nil_of_le (by omega)).symm

theorem chunkWindows_reconstruct {s : List Char} {size overlap : Nat}
    (h1 : 1 ≤ size) (h2 : 2 * overlap ≤ size) (ws : List (Nat × Nat))
    (h : chunkWindowsF s size overlap (s.length + 1) 0 = some ws) :
    reconcat overlap (ws.map (fun w => sliceL s w.1 w.2)) = s := by
  rw [chunkWindowsF] at h
  split at h
  · rename_i hlt
    cases hres : chunkWindowsF s size overlap s.length (chunkStep s size 0 - overlap) with
    | none => rw [hres] at h; exact absurd h (by simp)
    | some rest =>
      rw [hres] at h
      have hws : ws = (0, chunkStep s size 0) :: rest := (Option.some_injective _ h).symm
      subst hws
      have hstep := chunkStep_lower s h1 h2 0
      have hrest := windows_join_drop h1 h2 s.length (chunkStep s size 0 - overlap) rest hres
      have hsub : chunkStep s size 0 - overlap + overlap = chunkStep s size 0 := by omega
      rw [hsub] at hrest
      simp only [List.map_cons, reconcat, List.map_map]
      have hrest2 : (List.map ((fun d => List.drop overlap d) ∘ fun w => sliceL s w.1 w.2)
          rest).join = List.drop (chunkStep s size 0) s := hrest
      rw [hrest2]
      have hslice : sliceL s 0 (chunkStep s size 0) = s.take (chunkStep s size 0) := by
        simp [sliceL]
      rw [hslice, List.take_append_drop]
  · rename_i hge
    have hws : ws = [] := (Option.some_injective _ h).symm
    subst hws
    have hs : s = [] := List.eq_nil_of_length_eq_zero (by omega)
    rw [hs]
    rfl

theorem chunkWindows_width (s : List Char) (size overlap : Nat) :
    ∀ fuel start ws, chunkWindowsF s size overlap fuel start = some ws →
      ∀ w ∈ ws, w.2 ≤ w.1 + size + 1 := by
  intro fuel
  induction fuel with
  | zero => intro start ws h; exact absurd h (by simp [chunkWindowsF])
  | succ n ih =>
    intro start ws h
    simp only [chunkWindowsF] at h
    split at h
    · cases hres : chunkWindowsF s size overlap n (chunkStep s size start - overlap) with
      | none => rw [hres] at h; exact absurd h (by simp)
      | some rest =>
        rw [hres] at h
        have hws : ws = (start, chunkStep s size start) :: rest :=
          (Option.some_injective _ h).symm
        subst hws
        intro w hw
        rcases List.mem_cons.mp hw with rfl | hw'
        · exact chunkStep_upper s size start
        · exact ih (chunkStep s size start - overlap) rest hres w hw'
    · have hws : ws = [] := (Option.some_injective _ h).symm
      subst hws
      intro w hw
      exact absurd hw (List.not_mem_nil w)

/-! ## Claim C7 -/

/-- Claim C7 counterexample: at text "aaaa. x  y" with size 4 and overlap 1,
concatenating the produced fragments with overlapping prefixes removed does
not reconstruct the text (each pushed slice is trimmed, losing boundary
whitespace, and empty fragments are dropped), and the first fragment has
length 5 > 4 even though a suitable break point (the period at index 4,
strictly past the window midpoint) exists within the window and was used. -/
theorem chunkText_reconstruct_cex :
    reconcat 1 (chunkText "aaaa. x  y".data 4 1) ≠ "aaaa. x  y".data ∧
    (∃ c ∈ chunkText "aaaa. x  y".data 4 1, 4 < c.length) ∧
    2 * (max (lastIdxLe "aaaa. x  y".data '.' 4) (lastIdxLe "aaaa. x  y".data '\n' 4)) >
      2 * (0 : Int) + 4 := by
  exact ⟨by decide, ⟨"aaaa.".data, by decide, by decide⟩, by decide⟩

/-- Claim C7 amended: when 1 ≤ size and 2 * overlap ≤ size, the untrimmed
window slices of chunkText, concatenated with the overlapping prefixes
removed, reconstruct the text exactly with no gaps; the returned fragments
are exactly those slices trimmed of surrounding whitespace with empty
fragments discarded; and every window spans at most size + 1 characters
(the boundary heuristic may land one character past the raw window end). -/
theorem chunkText_coverage (s : List Char) (size overlap : Nat)
    (h1 : 1 ≤ size) (h2 : 2 * overlap ≤ size) :
    ∃ ws, chunkWindowsF s size overlap (s.length + 1) 0 = some ws ∧
      reconcat overlap (ws.map (fun w => sliceL s w.1 w.2)) = s ∧
      chunkText s size overlap =
        (ws.map (fun w => trimChars (sliceL s w.1 w.2))).filter (fun c => 0 < c.length) ∧
      ∀ w ∈ ws, w.2 ≤ w.1 + size + 1 := by
  have hsome := chunkLoopF_isSome (s := s) h1 h2 (s.length + 1) 0 (by omega)
  rw [chunkLoopF_eq_windows] at hsome
  obtain ⟨ws, hws⟩ : ∃ ws, chunkWindowsF s size overlap (s.length + 1) 0 = some ws := by
    cases hw : chunkWindowsF s size overlap (s.length + 1) 0 with
    | none => rw [hw] at hsome; simp at hsome
    | some ws => exact ⟨ws, rfl⟩
  refine ⟨ws, hws, chunkWindows_reconstruct h1 h2 ws hws, ?_,
    chunkWindows_width s size overlap _ 0 ws hws⟩
  unfold chunkText
  rw [chunkLoopF_eq_windows, hws]
  rfl

/-- Witness for the amended claim C7 at a concrete text. -/
theorem chunkText_coverage_witness :
    ∃ ws, chunkWindowsF "hi. all good".data 4 1 ("hi. all good".data.length + 1) 0 = some ws ∧
      reconcat 1 (ws.map (fun w => sliceL "hi. all good".data w.1 w.2)) = "hi. all good".data ∧
      chunkText "hi. all good".data 4 1 =
        (ws.map (fun w => trimChars (sliceL "hi. all good".data w.1 w.2))).filter
          (fun c => 0 < c.length) ∧
      ∀ w ∈ ws, w.2 ≤ w.1 + 4 + 1 :=
  chunkText_coverage "hi. all good".data 4 1 (by decide) (by decide)

/-! ## Claim C8 -/

theorem chunkLoop_ab_none : ∀ fuel, chunkLoopF "ab".data 1 1 fuel 0 = none := by
  intro fuel
  induction fuel with
  | zero => rfl
  | succ n ih =>
    simp only [chunkLoopF]
    rw [if_pos (by decide)]
    have hstep : chunkStep "ab".data 1 0 - 1 = 0 := by decide
    rw [hstep, ih]

/-- Claim C8 counterexample: chunkText does not terminate for every text,
size and overlap: at text "ab" with size 1 and overlap 1 the loop revisits
start 0 forever (the next start, end minus overlap clamped at zero, never
advances), so no amount of fuel completes the loop. -/
theorem chunkText_nonterminating_cex :
    ¬ ∃ fuel, (chunkLoopF "ab".data 1 1 fuel 0).isSome = true := by
  rintro ⟨fuel, hfuel⟩
  rw [chunkLoop_ab_none fuel] at hfuel
  simp at hfuel

/-- Claim C8 amended: whenever 1 ≤ size and 2 * overlap ≤ size (satisfied by
the deployed parameters 500 and 100), chunkText terminates and returns a
finite fully materialized fragment list, with text length + 1 loop
iterations always sufficient, since each iteration advances the next window
start (end minus overlap, clamped at zero) by at least one character. -/
theorem chunkText_terminates (s : List Char) (size overlap : Nat)
    (h1 : 1 ≤ size) (h2 : 2 * overlap ≤ size) :
    ∃ chunks, chunkLoopF s size overlap (s.length + 1) 0 = some chunks ∧
      chunkText s size overlap = chunks.filter (fun c => 0 < c.length) := by
  have hsome := chunkLoopF_isSome (s := s) h1 h2 (s.length + 1) 0 (by omega)
  obtain ⟨chunks, hc⟩ := Option.isSome_iff_exists.mp hsome
  exact ⟨chunks, hc, by unfold chunkText; rw [hc]; rfl⟩

/-- Witness for the amended claim C8 at a concrete text. -/
theorem chunkText_terminates_witness :
    ∃ chunks, chunkLoopF "hello world".data 5 2 ("hello world".data.length + 1) 0 =
        some chunks ∧
      chunkText "hello world".data 5 2 = chunks.filter (fun c => 0 < c.length) :=
  chunkText_terminates "hello world".data 5 2 (by decide) (by decide)

/-! ## Chat service (chat and chatWithDocument)

The agents-table lookup is modelled by an optional agent row (the SQL filter
on is_active means a returned row is an active agent); the retrieval result
and the completion provider result are inputs; the trace records the
externally visible effects: whether retrieval and the completion provider
were invoked, the decision-log writes, and the cost increment.  Wall-clock
latency is external and modelled as zero. -/

/-- Block reason of the kill-switch gate. -/
def killSwitchReason : String := "Agent kill switch is enabled"

/-- Block reason of the daily cost limit gate. -/
def costLimitReason : String := "Daily cost limit exceeded"

structure DecisionLog where
  action : String
  decision : String
  reason : String
deriving DecidableEq

structure ChatTrace where
  ragRetrieved : Bool
  completionCalled : Bool
  decisionLogs : List DecisionLog
  costDelta : ℚ
deriving DecidableEq

structure ChatDeps where
  ragResult : RetrievalResult
  completionText : String
  completionTokens : Nat
  freshId : String

structure ChatResponse where
  response : String
  conversationId : String
  tokensUsed : Nat
  latencyMs : Nat
  blocked : Bool := false
  blockReason : Option String := none
  evidence : Option (List RAGEvidence) := none
deriving DecidableEq

/-- Estimated cost of a turn: tokens divided by 1000 times 0.01 dollars. -/
def estimatedCost (tokensUsed : Nat) : ℚ := ((tokensUsed : ℚ) / 1000) * mkRat 1 100

/-- The chat entry point: agent lookup, kill switch, daily cost limit,
contract check, retrieval when RAG is enabled, mode check, then the
completion call, the cost increment and the decision log. -/
def chat (deps : ChatDeps) (agentRow : Option Agent) (message : String)
    (conversationId : Option String) : Except String (ChatResponse × ChatTrace) :=
  match agentRow with
  | none => .error "Agent not found or inactive"
  | some agent =>
    if agent.kill_switch then
      .ok ({ response := "This agent is currently disabled. Please contact an administrator.",
             conversationId := conversationId.getD deps.freshId,
             tokensUsed := 0, latencyMs := 0, blocked := true,
             blockReason := some killSwitchReason },
           { ragRetrieved := false, completionCalled := false,
             decisionLogs := [{ action := "chat", decision := "blocked",
                                reason := killSwitchReason }],
             costDelta := 0 })
    else if agent.cost_limit_daily ≤ agent.cost_used_today then
      .ok ({ response := "This agent has reached its daily usage limit. Please try again tomorrow.",
             conversationId := conversationId.getD deps.freshId,
             tokensUsed := 0, latencyMs := 0, blocked := true,
             blockReason := some costLimitReason },
           { ragRetrieved := false, completionCalled := false,
             decisionLogs := [{ action := "chat", decision := "blocked",
                                reason := costLimitReason }],
             costDelta := 0 })
    else
      let contractCheck := checkContract message agent
      if contractCheck.allowed then
        let rag := if agent.enable_rag then deps.ragResult
          else { context := "", evidence := [] }
        let modeCheck := checkModeRequirements agent.mode rag.evidence
        if modeCheck.allowed then
          .ok ({ response := deps.completionText,
                 conversationId := conversationId.getD deps.freshId,
                 tokensUsed := deps.completionTokens, latencyMs := 0,
                 blocked := false, blockReason := none,
                 evidence := some rag.evidence },
               { ragRetrieved := agent.enable_rag, completionCalled := true,
                 decisionLogs := [{ action := "chat", decision := "allowed",
                                    reason := "Response generated with " ++
                                      toString rag.evidence.length ++ " evidence sources" }],
                 costDelta := estimatedCost deps.completionTokens })
        else
          .ok ({ response := "I cannot answer this question as I don\u0027t have sufficient information in my knowledge base.",
                 conversationId := conversationId.getD deps.freshId,
                 tokensUsed := 0, latencyMs := 0, blocked := true,
                 blockReason := modeCheck.reason, evidence := some [] },
               { ragRetrieved := agent.enable_rag, completionCalled := false,
                 decisionLogs := [{ action := "chat", decision := "blocked",
                                    reason := modeCheck.reason.getD "" }],
                 costDelta := 0 })
      else
        .ok ({ response := "I cannot respond to this request as it falls outside my allowed scope.",
               conversationId := conversationId.getD deps.freshId,
               tokensUsed := 0, latencyMs := 0, blocked := true,
               blockReason := contractCheck.reason },
             { ragRetrieved := false, completionCalled := false,
               decisionLogs := [{ action := "chat", decision := "blocked",
                                  reason := contractCheck.reason.getD "" }],
               costDelta := 0 })

/-- The chat-with-uploaded-document entry point: agent lookup, kill switch,
then directly the completion call with the document content in the prompt;
no contract check, no cost-limit check, no mode check, no decision log and
no cost increment. -/
def chatWithDocument (deps : ChatDeps) (agentRow : Option Agent)
    (message documentContent : String) : Except String (ChatResponse × ChatTrace) :=
  match agentRow with
  | none => .error "Agent not found or inactive"
  | some agent =>
    if agent.kill_switch then
      .ok ({ response := "This agent is currently disabled.",
             conversationId := deps.freshId, tokensUsed := 0, latencyMs := 0,
             blocked := true, blockReason := some killSwitchReason },
           { ragRetrieved := false, completionCalled := false,
             decisionLogs := [], costDelta := 0 })
    else
      .ok ({ response := deps.completionText, conversationId := deps.freshId,
             tokensUsed := deps.completionTokens, latencyMs := 0,
             blocked := false, blockReason := none,
             evidence := some [{ document_id := "uploaded",
                                 document_name := "Uploaded Document", document_version := 1,
                                 chunk_text := String.mk (documentContent.data.take 500) ++ "...",
                                 chunk_index := 0, similarity_score := 1 }] },
           { ragRetrieved := false, completionCalled := true,
             decisionLogs := [], costDelta := 0 })

/-! ## Claim C1 -/

/-- Claim C1: on an active agent, a kill switch blocks the turn with a reason
citing the kill switch, zero tokens and no completion call, regardless of the
message; otherwise cost_used_today at or above cost_limit_daily (including
exact equality) blocks with the daily-cost-limit reason before any provider
call; both outcomes are ordinary ok responses with blocked true, not thrown
errors. -/
theorem chat_kill_and_cost_gate (deps : ChatDeps) (agent : Agent) (message : String)
    (conversationId : Option String) :
    (agent.kill_switch = true →
      ∃ resp trace, chat deps (some agent) message conversationId = .ok (resp, trace) ∧
        resp.blocked = true ∧ resp.blockReason = some killSwitchReason ∧
        resp.tokensUsed = 0 ∧ trace.completionCalled = false ∧
        trace.ragRetrieved = false) ∧
    (agent.kill_switch = false → agent.cost_limit_daily ≤ agent.cost_used_today →
      ∃ resp trace, chat deps (some agent) message conversationId = .ok (resp, trace) ∧
        resp.blocked = true ∧ resp.blockReason = some costLimitReason ∧
        resp.tokensUsed = 0 ∧ trace.completionCalled = false ∧
        trace.ragRetrieved = false) := by
  constructor
  · intro hk
    refine ⟨{ response := "This agent is currently disabled. Please contact an administrator.",
              conversationId := conversationId.getD deps.freshId, tokensUsed := 0,
              latencyMs := 0, blocked := true, blockReason := some killSwitchReason },
            { ragRetrieved := false, completionCalled := false,
              decisionLogs := [{ action := "chat", decision := "blocked",
                                 reason := killSwitchReason }], costDelta := 0 },
            ?_, rfl, rfl, rfl, rfl, rfl⟩
    simp [chat, hk]
  · intro hk hcost
    refine ⟨{ response := "This agent has reached its daily usage limit. Please try again tomorrow.",
              conversationId := conversationId.getD deps.freshId, tokensUsed := 0,
              latencyMs := 0, blocked := true, blockReason := some costLimitReason },
            { ragRetrieved := false, completionCalled := false,
              decisionLogs := [{ action := "chat", decision := "blocked",
                                 reason := costLimitReason }], costDelta := 0 },
            ?_, rfl, rfl, rfl, rfl, rfl⟩
    simp [chat, hk, hcost]

/-- Dependency fixture for the chat witnesses. -/
def chatDepsW : ChatDeps :=
  { ragResult := { context := "", evidence := [] }, completionText := "ok",
    completionTokens := 100, freshId := "conv-1" }

/-- Agent fixture with the kill switch enabled. -/
def killAgentW : Agent :=
  { kill_switch := true, cost_used_today := 0, cost_limit_daily := 1,
    forbidden_topics := [], allowed_topics := [], mode := .FREE,
    enable_rag := false, system_prompt := "" }

/-- Agent fixture with cost_used_today equal to cost_limit_daily. -/
def costAgentW : Agent :=
  { kill_switch := false, cost_used_today := 5, cost_limit_daily := 5,
    forbidden_topics := [], allowed_topics := [], mode := .FREE,
    enable_rag := false, system_prompt := "" }

/-- Witness for claim C1 at concrete inputs: a kill-switched agent and an
agent exactly at its daily cost limit. -/
theorem chat_kill_and_cost_gate_witness :
    (∃ resp trace, chat chatDepsW (some killAgentW) "hello" none = .ok (resp, trace) ∧
      resp.blocked = true ∧ resp.blockReason = some killSwitchReason ∧
      resp.tokensUsed = 0 ∧ trace.completionCalled = false ∧
      trace.ragRetrieved = false) ∧
    (∃ resp trace, chat chatDepsW (some costAgentW) "hello" none = .ok (resp, trace) ∧
      resp.blocked = true ∧ resp.blockReason = some costLimitReason ∧
      resp.tokensUsed = 0 ∧ trace.completionCalled = false ∧
      trace.ragRetrieved = false) :=
  ⟨(chat_kill_and_cost_gate chatDepsW killAgentW "hello" none).1 rfl,
   (chat_kill_and_cost_gate chatDepsW costAgentW "hello" none).2 rfl (le_refl costAgentW.cost_used_today)⟩

/-! ## Claim C10 -/

/-- Claim C10: chatWithDocument applies only the kill-switch governance
check: every active agent with the kill switch off proceeds to the
completion call no matter its cost usage, topics or mode; and on every
outcome it writes no decision-log entry and performs no cost increment. -/
theorem chatWithDocument_only_kill_gate (deps : ChatDeps) (agent : Agent)
    (message documentContent : String) :
    (agent.kill_switch = false →
      ∃ resp trace,
        chatWithDocument deps (some agent) message documentContent = .ok (resp, trace) ∧
        trace.completionCalled = true ∧ resp.blocked = false ∧
        trace.decisionLogs = [] ∧ trace.costDelta = 0) ∧
    (∀ resp trace,
      chatWithDocument deps (some agent) message documentContent = .ok (resp, trace) →
      trace.decisionLogs = [] ∧ trace.costDelta = 0) := by
  constructor
  · intro hk
    refine ⟨{ response := deps.completionText, conversationId := deps.freshId,
              tokensUsed := deps.completionTokens, latencyMs := 0,
              blocked := false, blockReason := none,
              evidence := some [{ document_id := "uploaded",
                                  document_name := "Uploaded Document", document_version := 1,
                                  chunk_text := String.mk (documentContent.data.take 500) ++ "...",
                                  chunk_index := 0, similarity_score := 1 }] },
            { ragRetrieved := false, completionCalled := true,
              decisionLogs := [], costDelta := 0 },
            ?_, rfl, rfl, rfl, rfl⟩
    simp [chatWithDocument, hk]
  · intro resp trace h
    cases hk : agent.kill_switch with
    | false =>
      simp only [chatWithDocument, hk, Bool.false_eq_true, if_false] at h
      obtain ⟨h1, h2⟩ := Prod.mk.inj (Except.ok.inj h)
      rw [← h2]
      exact ⟨rfl, rfl⟩
    | true =>
      simp only [chatWithDocument, hk, if_true] at h
      obtain ⟨h1, h2⟩ := Prod.mk.inj (Except.ok.inj h)
      rw [← h2]
      exact ⟨rfl, rfl⟩

/-- Agent fixture that chat would block on every gate except the kill
switch: cost over limit, a forbidden topic in the message, INTERNAL mode
with no evidence available. -/
def docAgentW : Agent :=
  { kill_switch := false, cost_used_today := 9, cost_limit_daily := 5,
    forbidden_topics := ["secret"], allowed_topics := ["other"],
    mode := .INTERNAL, enable_rag := true, system_prompt := "" }

/-- Witness for claim C10: the fixture agent is over its cost limit, the
message contains a forbidden topic, and INTERNAL mode has no evidence, yet
chatWithDocument still reaches the completion provider with no logging and
no cost increment. -/
theorem chatWithDocument_only_kill_gate_witness :
    (∃ resp trace,
      chatWithDocument chatDepsW (some docAgentW) "tell me a secret" "doc body" =
        .ok (resp, trace) ∧
      trace.completionCalled = true ∧ resp.blocked = false ∧
      trace.decisionLogs = [] ∧ trace.costDelta = 0) ∧
    docAgentW.cost_limit_daily ≤ docAgentW.cost_used_today ∧
    containsStr (strLower "tell me a secret") (strLower "secret") = true :=
  ⟨(chatWithDocument_only_kill_gate chatDepsW docAgentW "tell me a secret" "doc body").1 rfl,
   by decide, by decide⟩

/-! ## Ingestion pipeline (processDocument)

The document row lookup, the extractor and the per-chunk embedding calls are
external; they are passed in as parameters.  The state carries the fields of
the documents row this function mutates plus the embeddings rows of the
document; the outcome also records the rows inserted during the attempt.
Unrecoverable errors (document missing, extraction failure, no extracted
text) all occur before any fragment write; a per-chunk embedding failure is
caught and that chunk is skipped. -/

inductive DocStatus
  | pending
  | processing
  | completed
  | failed
deriving DecidableEq

structure EmbRow where
  chunk_index : Nat
  chunk_text : List Char
  embedding : List ℚ
deriving DecidableEq

structure DocState where
  status : DocStatus
  error_message : Option String
  embeddings : List EmbRow
deriving DecidableEq

/-- Error message thrown when extraction yields only whitespace. -/
def noTextMessage : String := "No text content extracted from document"

structure ProcessOutcome where
  result : Except String Unit
  state : DocState
  written : List EmbRow

/-- processDocument from the rag service: look the document up, mark it
processing, extract, reject empty text, chunk, delete the existing
embeddings of the document, insert an embeddings row per successfully
embedded chunk (skipping failed chunks), and mark the document completed; on
an unrecoverable error mark it failed with the error message and rethrow. -/
def processDocument (docFound : Bool) (extractResult : Except String (List Char))
    (embedResult : Nat → Except String (List ℚ)) (chunkSize chunkOverlap : Nat)
    (st : DocState) : ProcessOutcome :=
  if docFound = false then
    { result := .error "Document not found", state := st, written := [] }
  else
    match extractResult with
    | .error e =>
      { result := .error e,
        state := { st with status := .failed, error_message := some e },
        written := [] }
    | .ok text =>
      if (trimChars text).length = 0 then
        { result := .error noTextMessage,
          state := { st with status := .failed, error_message := some noTextMessage },
          written := [] }
      else
        let chunks := chunkText text chunkSize chunkOverlap
        let rows := chunks.enum.filterMap (fun p =>
          match embedResult p.1 with
          | .ok v => some { chunk_index := p.1, chunk_text := p.2, embedding := v }
          | .error _ => none)
        { result := .ok (),
          state := { st with status := .completed, embeddings := rows },
          written := rows }

/-! ## Claim C6 -/

/-- Claim C6: when processDocument fails with an unrecoverable error (the
parser throws, or extraction yields no text), the document status becomes
failed with the error message attached, and no fragment written during that
attempt remains: every unrecoverable error precedes the first write, so the
attempt writes nothing and leaves the stored rows untouched, and any
successful fresh attempt replaces the stored rows with exactly its own
writes (the delete of stale rows precedes the first insert). -/
theorem processDocument_failure_spec (extractResult : Except String (List Char))
    (embedResult : Nat → Except String (List ℚ)) (chunkSize chunkOverlap : Nat)
    (st : DocState) :
    (∀ e, extractResult = .error e →
      processDocument true extractResult embedResult chunkSize chunkOverlap st =
        { result := .error e,
          state := { st with status := .failed, error_message := some e },
          written := [] }) ∧
    (∀ text, extractResult = .ok text → (trimChars text).length = 0 →
      processDocument true extractResult embedResult chunkSize chunkOverlap st =
        { result := .error noTextMessage,
          state := { st with status := .failed, error_message := some noTextMessage },
          written := [] }) ∧
    (∀ text, extractResult = .ok text → (trimChars text).length ≠ 0 →
      (processDocument true extractResult embedResult chunkSize chunkOverlap st).state.embeddings =
        (processDocument true extractResult embedResult chunkSize chunkOverlap st).written) := by
  refine ⟨?_, ?_, ?_⟩
  · rintro e rfl
    rfl
  · rintro text rfl hempty
    simp only [processDocument]
    rw [if_neg (by simp), if_pos hempty]
  · rintro text rfl hne
    simp only [processDocument]
    rw [if_neg (by simp), if_neg hne]

/-- Witness for claim C6 at concrete inputs: a thrown extraction error, a
whitespace-only extraction, and a successful attempt whose stored rows are
exactly the rows it wrote. -/
theorem processDocument_failure_spec_witness :
    (processDocument true (.error "Failed to extract text from document: bad parse")
        (fun _ => .ok [1]) 500 100
        { status := .pending, error_message := none,
          embeddings := [{ chunk_index := 0, chunk_text := "old".data, embedding := [1] }] } =
      { result := .error "Failed to extract text from document: bad parse",
        state := { status := .failed,
                   error_message := some "Failed to extract text from document: bad parse",
                   embeddings := [{ chunk_index := 0, chunk_text := "old".data, embedding := [1] }] },
        written := [] }) ∧
    (processDocument true (.ok "   ".data) (fun _ => .ok [1]) 500 100
        { status := .pending, error_message := none, embeddings := [] } =
      { result := .error noTextMessage,
        state := { status := .failed, error_message := some noTextMessage, embeddings := [] },
        written := [] }) ∧
    ((processDocument true (.ok "hello".data) (fun _ => .ok [1]) 500 100
        { status := .pending, error_message := none,
          embeddings := [{ chunk_index := 0, chunk_text := "old".data, embedding := [1] }] }).state.embeddings =
      (processDocument true (.ok "hello".data) (fun _ => .ok [1]) 500 100
        { status := .pending, error_message := none,
          embeddings := [{ chunk_index := 0, chunk_text := "old".data, embedding := [1] }] }).written) := by
  refine ⟨?_, ?_, ?_⟩
  · exact (processDocument_failure_spec _ (fun _ => .ok [1]) 500 100 _).1
      "Failed to extract text from document: bad parse" rfl
  · exact (processDocument_failure_spec _ (fun _ => .ok [1]) 500 100 _).2.1
      "   ".data rfl (by decide)
  · exact (processDocument_failure_spec _ (fun _ => .ok [1]) 500 100 _).2.2
      "hello".data rfl (by decide)
